import Mathlib

/-!
Shallow embedding of the EngineUtilities ownership-and-container layer
(TSharedPointer, TWeakPointer, TArray, TMap, TSet) and proofs of the
specified properties.

Memory for the ownership handles is modelled explicitly: a heap of counter
cells (address, value) together with event logs of object deletions and
counter-cell frees, so that "destroys the object exactly once" is a
statement about the logs.  Addresses are natural numbers handed out by a
bump allocator; lookup and mutation act on the first matching cell, and
allocation conses at the front, so a freshly allocated cell shadows any
stale entry with the same address.
-/

namespace EngineUtilities

/-- Heap for the reference-counting model: `next` is the bump allocator,
`cells` the live counter cells (first match wins), `objDeleted` the log of
`delete ptr` events on managed objects, `cellFreed` the log of
`delete refCount` events on counter cells. -/
structure Mem where
  next : Nat
  cells : List (Nat × Int)
  objDeleted : List Nat
  cellFreed : List Nat
deriving DecidableEq

def Mem.empty : Mem := ⟨0, [], [], []⟩

/-- Read the first cell with the given address (dereference of a counter). -/
def cellsRead : List (Nat × Int) → Nat → Option Int
  | [], _ => none
  | (b, v) :: rest, a => if b = a then some v else cellsRead rest a

def Mem.read (m : Mem) (a : Nat) : Option Int :=
  cellsRead m.cells a

/-- Add `d` to the value of the first cell with the given address
(the increments and decrements of the reference count). -/
def cellsBump : List (Nat × Int) → Nat → Int → List (Nat × Int)
  | [], _, _ => []
  | (b, v) :: rest, a, d => if b = a then (b, v + d) :: rest else (b, v) :: cellsBump rest a d

def Mem.bump (m : Mem) (a : Nat) (d : Int) : Mem :=
  { m with cells := cellsBump m.cells a d }

/-- Remove the first cell with the given address (`delete refCount`). -/
def cellsErase : List (Nat × Int) → Nat → List (Nat × Int)
  | [], _ => []
  | (b, v) :: rest, a => if b = a then rest else (b, v) :: cellsErase rest a

def Mem.freeCell (m : Mem) (a : Nat) : Mem :=
  { m with cells := cellsErase m.cells a, cellFreed := a :: m.cellFreed }

/-- Log a `delete ptr` event; `delete` of a null pointer is a no-op. -/
def Mem.deleteObj (m : Mem) (p : Option Nat) : Mem :=
  match p with
  | none => m
  | some q => { m with objDeleted := q :: m.objDeleted }

/-- Allocate a fresh managed object (`new T`), returning its address. -/
def Mem.allocObj (m : Mem) : Nat × Mem :=
  (m.next, { m with next := m.next + 1 })

/-- Allocate a fresh counter cell (`new int(v)`), returning its address. -/
def Mem.allocCell (m : Mem) (v : Int) : Nat × Mem :=
  (m.next, { m with next := m.next + 1, cells := (m.next, v) :: m.cells })

/-- State of a `TSharedPointer<T>`: the managed-object pointer `ptr` and the
counter pointer `refCount`, each possibly null. -/
structure SP where
  ptr : Option Nat
  refCount : Option Nat
deriving DecidableEq

/-- Default constructor `TSharedPointer()` : both fields null. -/
def SP.mkDefault : SP := ⟨none, none⟩

/-- Member `isNull()` : `return ptr == nullptr;`. -/
def SP.isNull (sp : SP) : Bool := sp.ptr.isNone

/-- Member `get()` : returns the raw pointer. -/
def SP.rawGet (sp : SP) : Option Nat := sp.ptr

/-- Constructor `TSharedPointer(T* rawPtr) : ptr(rawPtr), refCount(new int(1))`.
Note the counter cell is allocated even when `rawPtr` is null. -/
def mkSharedFromRaw (m : Mem) (raw : Option Nat) : Mem × SP :=
  let a := (m.allocCell 1).1
  ((m.allocCell 1).2, ⟨raw, some a⟩)

/-- Constructor `TSharedPointer(T* rawPtr, int* existingRefCount)` : copies both
fields and increments the counter when it is non-null. -/
def mkSharedAlias (m : Mem) (raw : Option Nat) (rc : Option Nat) : Mem × SP :=
  match rc with
  | none => (m, ⟨raw, none⟩)
  | some a => (m.bump a 1, ⟨raw, some a⟩)

/-- Copy constructor: copies `ptr` and `refCount` and increments the counter
when it is non-null. -/
def copySP (m : Mem) (other : SP) : Mem × SP :=
  match other.refCount with
  | none => (m, ⟨other.ptr, none⟩)
  | some a => (m.bump a 1, ⟨other.ptr, some a⟩)

/-- Move constructor: the new handle takes the fields, the source is nulled.
Returns (new handle, source after the move). -/
def moveSP (other : SP) : SP × SP :=
  (⟨other.ptr, other.refCount⟩, ⟨none, none⟩)

/-- Destructor body, shared verbatim by `~TSharedPointer`, the first half of
both assignment operators, and `reset`:
`if (refCount && --(*refCount) == 0) { delete ptr; delete refCount; }`.
A read of an already-freed counter cell (undefined behaviour in the source)
is modelled as a no-op; it is unreachable in the traces proved below. -/
def destroySP (m : Mem) (sp : SP) : Mem :=
  match sp.refCount with
  | none => m
  | some rc =>
    match m.read rc with
    | none => m
    | some v =>
      let m1 := m.bump rc (-1)
      if v - 1 = 0 then (m1.deleteObj sp.ptr).freeCell rc else m1

/-- Copy assignment `operator=(const TSharedPointer&)`. The argument `same`
is the value of the address comparison `this == &other`; when it is true the
body is skipped entirely. Otherwise the current target is released and the
fields of `other` are copied with an increment. Returns (heap, new state of
the assigned-to handle). -/
def copyAssignSP (m : Mem) (dst src : SP) (same : Bool) : Mem × SP :=
  if same then (m, dst)
  else
    let m1 := destroySP m dst
    match src.refCount with
    | none => (m1, ⟨src.ptr, none⟩)
    | some a => (m1.bump a 1, ⟨src.ptr, some a⟩)

/-- Move assignment `operator=(TSharedPointer&&)`: releases the current
target, transfers the fields, nulls the source. Returns
(heap, assigned-to handle, source after the move). -/
def moveAssignSP (m : Mem) (dst src : SP) (same : Bool) : Mem × SP × SP :=
  if same then (m, dst, src)
  else (destroySP m dst, ⟨src.ptr, src.refCount⟩, ⟨none, none⟩)

/-- Member `reset(T* newPtr = nullptr)`: releases the current target, then
either nulls both fields or takes the new pointer with a fresh counter of 1. -/
def resetSP (m : Mem) (sp : SP) (newPtr : Option Nat) : Mem × SP :=
  let m1 := destroySP m sp
  match newPtr with
  | none => (m1, ⟨none, none⟩)
  | some q =>
    let a := (m1.allocCell 1).1
    ((m1.allocCell 1).2, ⟨some q, some a⟩)

/-- Member `swap`: exchanges the two field pairs, no counter mutation. -/
def swapSP (x y : SP) : SP × SP :=
  (⟨y.ptr, y.refCount⟩, ⟨x.ptr, x.refCount⟩)

/-- State of a `TWeakPointer<T>`: same two fields, never owning. -/
structure WP where
  ptr : Option Nat
  refCount : Option Nat
deriving DecidableEq

/-- Constructor `TWeakPointer(const TSharedPointer&)`: copies both fields
without touching the counter. -/
def WP.fromShared (sp : SP) : WP := ⟨sp.ptr, sp.refCount⟩

/-- The condition of `lock()`: `refCount && *refCount > 0`. A dangling
counter pointer (cell already freed) is modelled as a failed condition; this
matches the source because the owning teardown writes 0 into the cell
immediately before freeing it. -/
def lockCond (m : Mem) (wp : WP) : Bool :=
  match wp.refCount with
  | none => false
  | some rc =>
    match m.read rc with
    | none => false
    | some v => decide (0 < v)

/-- Member `lock()`: `if (refCount && *refCount > 0) return
TSharedPointer(ptr, refCount); return TSharedPointer();`. -/
def lockWP (m : Mem) (wp : WP) : Mem × SP :=
  match wp.refCount with
  | none => (m, SP.mkDefault)
  | some rc =>
    match m.read rc with
    | none => (m, SP.mkDefault)
    | some v =>
      if 0 < v then mkSharedAlias m wp.ptr (some rc) else (m, SP.mkDefault)

/-! Basic lemmas about the heap primitives. -/

@[simp] lemma cellsRead_cons_self (a : Nat) (v : Int) (t : List (Nat × Int)) :
    cellsRead ((a, v) :: t) a = some v := by
  simp [cellsRead]

@[simp] lemma cellsBump_cons_self (a : Nat) (v d : Int) (t : List (Nat × Int)) :
    cellsBump ((a, v) :: t) a d = (a, v + d) :: t := by
  simp [cellsBump]

@[simp] lemma cellsErase_cons_self (a : Nat) (v : Int) (t : List (Nat × Int)) :
    cellsErase ((a, v) :: t) a = t := by
  simp [cellsErase]

lemma cellsRead_cellsBump (l : List (Nat × Int)) (a : Nat) (d : Int) :
    cellsRead (cellsBump l a d) a = (cellsRead l a).map (· + d) := by
  induction l with
  | nil => simp [cellsRead, cellsBump]
  | cons hd tl ih =>
    obtain ⟨b, v⟩ := hd
    by_cases hb : b = a <;> simp [cellsRead, cellsBump, hb, ih]

lemma Mem.read_bump_self (m : Mem) (a : Nat) (d : Int) :
    (m.bump a d).read a = (m.read a).map (· + d) := by
  simp [Mem.read, Mem.bump, cellsRead_cellsBump]

/-- Null-pointer invariant of the specification:
the target is null exactly when the counter pointer is null. -/
def nullInv (sp : SP) : Prop := sp.ptr = none ↔ sp.refCount = none

instance (sp : SP) : Decidable (nullInv sp) := by
  unfold nullInv; infer_instance

lemma copySP_snd (m : Mem) (p r : Option Nat) :
    (copySP m ⟨p, r⟩).2 = ⟨p, r⟩ := by
  cases r <;> rfl

lemma copyAssignSP_snd (m : Mem) (dst : SP) (p r : Option Nat) (same : Bool) :
    (copyAssignSP m dst ⟨p, r⟩ same).2 = if same then dst else ⟨p, r⟩ := by
  cases same <;> cases r <;> rfl

/-- C1: Shared Handle reference-count lifecycle. Starting from any heap, a
fresh object wrapped in `sp1` followed by the copy chain `sp2 = sp1;
sp3 = sp2` has count 3; destroying `sp1` and `sp2` deletes nothing and
leaves `sp3` non-null at the original object with count 1; destroying `sp3`
then deletes the object exactly once and frees the counter cell exactly
once, restoring the cell heap. -/
theorem c1_shared_refcount_lifecycle (m : Mem) :
    let obj := m.allocObj.1
    let m1 := m.allocObj.2
    let sp1 := (mkSharedFromRaw m1 (some obj)).2
    let m2 := (mkSharedFromRaw m1 (some obj)).1
    let sp2 := (copySP m2 sp1).2
    let m3 := (copySP m2 sp1).1
    let sp3 := (copySP m3 sp2).2
    let m4 := (copySP m3 sp2).1
    let m5 := destroySP m4 sp1
    let m6 := destroySP m5 sp2
    let m7 := destroySP m6 sp3
    sp3.isNull = false ∧
    sp3.rawGet = some obj ∧
    m4.read (m.next + 1) = some 3 ∧
    m6.objDeleted = m.objDeleted ∧
    m6.cellFreed = m.cellFreed ∧
    m6.read (m.next + 1) = some 1 ∧
    m7.objDeleted = obj :: m.objDeleted ∧
    m7.cellFreed = (m.next + 1) :: m.cellFreed ∧
    m7.cells = m.cells := by
  simp [Mem.allocObj, Mem.allocCell, mkSharedFromRaw, copySP, destroySP,
    Mem.read, Mem.bump, Mem.deleteObj, Mem.freeCell, SP.isNull, SP.rawGet]

/-- C10: self-assignment of a Shared Handle (the `this != &other` guard
evaluating to false) leaves the heap, both fields, and every stored counter
value unchanged. -/
theorem c10_self_assignment_noop (m : Mem) (sp : SP) :
    copyAssignSP m sp sp true = (m, sp) ∧
    ∀ a, (copyAssignSP m sp sp true).1.read a = m.read a := by
  constructor
  · rfl
  · intro a; rfl

/-- C2 counterexample: constructing a Shared Handle from a null raw pointer
gives a null target with a non-null counter pointer (a fresh cell holding 1),
so the state does not satisfy the claimed null-invariant. -/
theorem c2_null_invariant_counterexample :
    (mkSharedFromRaw Mem.empty none).2.ptr = none ∧
    (mkSharedFromRaw Mem.empty none).2.refCount = some 0 ∧
    (mkSharedFromRaw Mem.empty none).1.read 0 = some 1 ∧
    ¬ nullInv (mkSharedFromRaw Mem.empty none).2 := by
  decide

/-- C2 (amended): the null-invariant holds for the default handle and for
raw-pointer construction from a non-null pointer, and it is preserved by
copy construction, move construction, copy and move assignment, reset, and
swap; raw-pointer construction from a null pointer violates it. -/
theorem c2_null_invariant_amended (m : Mem) (sp other dst src x y : SP)
    (newPtr : Option Nat) (q : Nat) (same : Bool) :
    nullInv SP.mkDefault ∧
    nullInv (mkSharedFromRaw m (some q)).2 ∧
    (nullInv other → nullInv (copySP m other).2) ∧
    (nullInv other → nullInv (moveSP other).1 ∧ nullInv (moveSP other).2) ∧
    (nullInv dst → nullInv src → nullInv (copyAssignSP m dst src same).2) ∧
    (nullInv dst → nullInv src →
      nullInv (moveAssignSP m dst src same).2.1 ∧
      nullInv (moveAssignSP m dst src same).2.2) ∧
    nullInv (resetSP m sp newPtr).2 ∧
    (nullInv x → nullInv y → nullInv (swapSP x y).1 ∧ nullInv (swapSP x y).2) ∧
    ¬ nullInv (mkSharedFromRaw m none).2 := by
  refine ⟨by simp [nullInv, SP.mkDefault], by simp [nullInv, mkSharedFromRaw], ?_, ?_, ?_, ?_, ?_, ?_, ?_⟩
  · intro h
    obtain ⟨p, r⟩ := other
    rw [copySP_snd]; exact h
  · intro h
    exact ⟨h, by simp [nullInv, moveSP]⟩
  · intro hd hs
    obtain ⟨p, r⟩ := src
    rw [copyAssignSP_snd]
    cases same <;> simpa
  · intro hd hs
    cases same with
    | true => exact ⟨hd, hs⟩
    | false => exact ⟨hs, Iff.rfl⟩
  · cases newPtr <;> simp [resetSP, nullInv]
  · intro hx hy
    exact ⟨hy, hx⟩
  · simp [nullInv, mkSharedFromRaw]

/-- C2 witness: the amended invariant statement instantiated on concrete
handles and heaps. -/
theorem c2_null_invariant_amended_witness :
    nullInv (mkSharedFromRaw Mem.empty (some 7)).2 ∧
    nullInv (copySP Mem.empty SP.mkDefault).2 ∧
    ¬ nullInv (mkSharedFromRaw Mem.empty none).2 := by
  have h := c2_null_invariant_amended Mem.empty SP.mkDefault SP.mkDefault SP.mkDefault
    SP.mkDefault SP.mkDefault SP.mkDefault none 7 true
  exact ⟨h.2.1, h.2.2.1 (by decide), h.2.2.2.2.2.2.2.2⟩

/-- C3: behaviour of Weak Handle `lock()`. When the counter pointer is
non-null and the stored count is positive, `lock` returns a handle aliasing
the observed fields and increments the count by one; otherwise it returns
the empty handle and leaves the heap alone. In particular, in the concrete
trace where the last owning Shared Handle is destroyed (or reset), `lock`
afterwards returns an empty handle with `isNull = true`. -/
theorem c3_weak_lock (m : Mem) (wp : WP) (rc : Nat) (v : Int) :
    (lockCond m wp = true →
      (lockWP m wp).2.ptr = wp.ptr ∧
      (lockWP m wp).2.refCount = wp.refCount ∧
      (wp.refCount = some rc → m.read rc = some v →
        (lockWP m wp).1.read rc = some (v + 1))) ∧
    (lockCond m wp = false →
      lockWP m wp = (m, SP.mkDefault) ∧ (lockWP m wp).2.isNull = true) ∧
    (let o := Mem.empty.allocObj.1
     let mA := Mem.empty.allocObj.2
     let sp := (mkSharedFromRaw mA (some o)).2
     let mB := (mkSharedFromRaw mA (some o)).1
     let wp0 := WP.fromShared sp
     ((lockWP (destroySP mB sp) wp0).2.isNull = true ∧
      lockWP (destroySP mB sp) wp0 = (destroySP mB sp, SP.mkDefault)) ∧
     ((lockWP (resetSP mB sp none).1 wp0).2.isNull = true ∧
      lockWP (resetSP mB sp none).1 wp0 = ((resetSP mB sp none).1, SP.mkDefault))) := by
  refine ⟨?_, ?_, by decide⟩
  · intro hcond
    cases hwp : wp.refCount with
    | none => simp [lockCond, hwp] at hcond
    | some a =>
      cases hv : m.read a with
      | none => simp [lockCond, hwp, hv] at hcond
      | some w =>
        have hw : 0 < w := by simpa [lockCond, hwp, hv] using hcond
        have hlock : lockWP m wp = (m.bump a 1, ⟨wp.ptr, some a⟩) := by
          simp [lockWP, hwp, hv, hw, mkSharedAlias]
        refine ⟨by rw [hlock], by rw [hlock], ?_⟩
        intro hrc hread
        injection hrc with hrc
        subst hrc
        rw [hlock]
        show (m.bump a 1).read a = some (v + 1)
        rw [Mem.read_bump_self, hread]
        rfl
  · intro hcond
    cases hwp : wp.refCount with
    | none =>
      exact ⟨by simp [lockWP, hwp], by simp [lockWP, hwp, SP.mkDefault, SP.isNull]⟩
    | some a =>
      cases hv : m.read a with
      | none =>
        exact ⟨by simp [lockWP, hwp, hv], by simp [lockWP, hwp, hv, SP.mkDefault, SP.isNull]⟩
      | some w =>
        have hw : ¬ 0 < w := by simpa [lockCond, hwp, hv] using hcond
        exact ⟨by simp [lockWP, hwp, hv, hw], by simp [lockWP, hwp, hv, hw, SP.mkDefault, SP.isNull]⟩

/-- C3 witness: on a live owner with count 1, `lock` succeeds, aliases the
object at address 0 through the counter cell at address 1, and raises the
count to 2. -/
theorem c3_weak_lock_witness :
    (lockWP (mkSharedFromRaw Mem.empty.allocObj.2 (some 0)).1
        (WP.fromShared (mkSharedFromRaw Mem.empty.allocObj.2 (some 0)).2)).2.ptr = some 0 ∧
    (lockWP (mkSharedFromRaw Mem.empty.allocObj.2 (some 0)).1
        (WP.fromShared (mkSharedFromRaw Mem.empty.allocObj.2 (some 0)).2)).1.read 1 = some 2 := by
  have h := c3_weak_lock (mkSharedFromRaw Mem.empty.allocObj.2 (some 0)).1
    (WP.fromShared (mkSharedFromRaw Mem.empty.allocObj.2 (some 0)).2) 1 1
  have hpos := h.1 (by decide)
  exact ⟨hpos.1, hpos.2.2 (by decide) (by decide)⟩

/-! Containers. Buffers are modelled by their logical contents (the first
`Size` slots) together with the tracked `Capacity`; the error channel of §7
is made explicit by a `Signal`: `ok` for the normal path, `logReturn` for
"write a diagnostic to `std::cerr` and return", `logExit` for "write a
diagnostic and `exit(1)`". -/

inductive Signal where
  | ok : Signal
  | logReturn : Signal
  | logExit : Signal
deriving DecidableEq

/-- Dynamic sequence `TArray<T>`: logical contents and capacity. -/
structure TArray (α : Type) where
  data : List α
  capacity : Nat
deriving DecidableEq

/-- Default constructor: `Data(nullptr), Capacity(0), Size(0)`. -/
def TArray.empty {α : Type} : TArray α := ⟨[], 0⟩

def TArray.Num {α : Type} (arr : TArray α) : Nat := arr.data.length

def TArray.GetCapacity {α : Type} (arr : TArray α) : Nat := arr.capacity

/-- Member `Add`: if `Size == Capacity`, `Resize(Capacity == 0 ? 1 :
Capacity * 2)` (which copies the `Size` live elements), then
`Data[Size++] = Element`. -/
def TArray.Add {α : Type} (arr : TArray α) (x : α) : TArray α :=
  if arr.data.length = arr.capacity then
    { data := arr.data ++ [x],
      capacity := if arr.capacity = 0 then 1 else arr.capacity * 2 }
  else
    { data := arr.data ++ [x], capacity := arr.capacity }

/-- The shift loop of `RemoveAt`: `Data[i] = Data[i+1]` for
`i ∈ [Index, Size-1)` followed by `--Size` removes the element at `Index`,
keeping the order of the others. -/
def shiftEraseAt {α : Type} : List α → Nat → List α
  | [], _ => []
  | _ :: xs, 0 => xs
  | x :: xs, n + 1 => x :: shiftEraseAt xs n

/-- Member `RemoveAt(Index)`: `if (Index >= Size) { std::cerr << ...; return; }`
else shift left and shrink. -/
def TArray.RemoveAt {α : Type} (arr : TArray α) (i : Nat) : TArray α × Signal :=
  if arr.data.length ≤ i then (arr, .logReturn)
  else ({ arr with data := shiftEraseAt arr.data i }, .ok)

/-- Member `operator[](Index)`: `if (Index >= Size) { std::cerr << ...;
exit(1); } return Data[Index];`. -/
def TArray.get {α : Type} (arr : TArray α) (i : Nat) : Option α × Signal :=
  if arr.data.length ≤ i then (none, .logExit)
  else (arr.data[i]?, .ok)

/-- A sequence of consecutive `Add` calls. -/
def TArray.addMany {α : Type} (arr : TArray α) (xs : List α) : TArray α :=
  xs.foldl TArray.Add arr

@[simp] lemma TArray.Add_num {α : Type} (arr : TArray α) (x : α) :
    (arr.Add x).Num = arr.Num + 1 := by
  unfold TArray.Add TArray.Num
  split <;> simp

lemma TArray.addMany_num {α : Type} (arr : TArray α) (xs : List α) :
    (arr.addMany xs).Num = arr.Num + xs.length := by
  induction xs generalizing arr with
  | nil => simp [TArray.addMany]
  | cons y ys ih =>
    show ((arr.Add y).addMany ys).Num = arr.Num + (ys.length + 1)
    rw [ih, TArray.Add_num]
    omega

/-- The capacity invariant maintained by `Add`: zero size means zero
capacity, and a positive size means the capacity is a power of two with
`Num ≤ Capacity < 2 * Num`. -/
def capOk (n cap : Nat) : Prop :=
  (n = 0 → cap = 0) ∧ (1 ≤ n → (∃ k, cap = 2 ^ k) ∧ n ≤ cap ∧ cap < 2 * n)

lemma TArray.Add_capOk {α : Type} (arr : TArray α) (x : α)
    (h : capOk arr.Num arr.capacity) :
    capOk (arr.Add x).Num (arr.Add x).capacity := by
  obtain ⟨h0, hpos⟩ := h
  rw [TArray.Add]
  rcases Nat.eq_zero_or_pos arr.Num with hn | hn
  · have hc : arr.capacity = 0 := h0 hn
    have hlen : arr.data.length = 0 := hn
    rw [if_pos (by rw [hlen, hc]), if_pos hc]
    constructor
    · intro hcontra
      simp [TArray.Num] at hcontra
    · intro _
      exact ⟨⟨0, rfl⟩, by simp [TArray.Num, hlen], by simp [TArray.Num, hlen]⟩
  · obtain ⟨⟨k, hk⟩, hle, hlt⟩ := hpos hn
    have hcap1 : 1 ≤ arr.capacity := le_trans hn hle
    by_cases hfull : arr.data.length = arr.capacity
    · rw [if_pos hfull, if_neg (by omega)]
      constructor
      · intro h; simp [TArray.Num] at h
      · intro _
        refine ⟨⟨k + 1, by rw [pow_succ, ← hk]⟩, ?_, ?_⟩ <;>
          · simp only [TArray.Num, List.length_append, List.length_cons,
              List.length_nil]
            have : arr.data.length = arr.capacity := hfull
            unfold TArray.Num at hle hlt hn
            omega
    · rw [if_neg hfull]
      constructor
      · intro h; simp [TArray.Num] at h
      · intro _
        refine ⟨⟨k, hk⟩, ?_, ?_⟩ <;>
          · simp only [TArray.Num, List.length_append, List.length_cons,
              List.length_nil]
            unfold TArray.Num at hle hlt hn
            omega

lemma TArray.addMany_capOk {α : Type} (arr : TArray α) (xs : List α)
    (h : capOk arr.Num arr.capacity) :
    capOk (arr.addMany xs).Num (arr.addMany xs).capacity := by
  induction xs generalizing arr with
  | nil => exact h
  | cons y ys ih =>
    exact ih (arr.Add y) (TArray.Add_capOk arr y h)

/-- C4: growth law of the dynamic sequence. After `n ≥ 1` consecutive `Add`
calls on a default-constructed sequence, `Num` is `n` and the capacity is
the least element of the doubling sequence 1, 2, 4, 8, ... that is at least
`n`: it is a power of two, at least `n`, and at most any power of two that
is at least `n`. -/
theorem c4_growth_law {α : Type} (xs : List α) (h : 1 ≤ xs.length) :
    ((TArray.empty : TArray α).addMany xs).Num = xs.length ∧
    (∃ k, ((TArray.empty : TArray α).addMany xs).GetCapacity = 2 ^ k) ∧
    xs.length ≤ ((TArray.empty : TArray α).addMany xs).GetCapacity ∧
    ∀ j, xs.length ≤ 2 ^ j →
      ((TArray.empty : TArray α).addMany xs).GetCapacity ≤ 2 ^ j := by
  have hnum : ((TArray.empty : TArray α).addMany xs).Num = xs.length := by
    rw [TArray.addMany_num]
    simp [TArray.empty, TArray.Num]
  have hcap := TArray.addMany_capOk (TArray.empty : TArray α) xs
    (by exact ⟨fun _ => rfl, fun hx => absurd hx (by simp [TArray.Num, TArray.empty])⟩)
  rw [hnum] at hcap
  obtain ⟨⟨k, hk⟩, hle, hlt⟩ := hcap.2 h
  refine ⟨hnum, ⟨k, hk⟩, hle, ?_⟩
  intro j hj
  show ((TArray.empty : TArray α).addMany xs).capacity ≤ 2 ^ j
  rw [hk]
  by_contra hcon
  push_neg at hcon
  have hjk : j < k := by
    rcases Nat.lt_or_ge j k with h1 | h1
    · exact h1
    · exact absurd (Nat.pow_le_pow_right (show 0 < 2 by norm_num) h1) (by omega)
  have hsucc : 2 ^ (j + 1) ≤ 2 ^ k := Nat.pow_le_pow_right (show 0 < 2 by norm_num) hjk
  have : (2 : Nat) ^ (j + 1) = 2 * 2 ^ j := by rw [pow_succ]; ring
  rw [hk] at hlt
  omega

/-- C4 witness: five consecutive adds give size 5 and capacity 8, the least
power of two at least 5. -/
theorem c4_growth_law_witness :
    ((TArray.empty : TArray Nat).addMany [10, 20, 30, 40, 50]).Num = 5 ∧
    ((TArray.empty : TArray Nat).addMany [10, 20, 30, 40, 50]).GetCapacity ≤ 2 ^ 3 ∧
    5 ≤ ((TArray.empty : TArray Nat).addMany [10, 20, 30, 40, 50]).GetCapacity := by
  have h := c4_growth_law (α := Nat) [10, 20, 30, 40, 50] (by decide)
  exact ⟨h.1, h.2.2.2 3 (by decide), h.2.2.1⟩

/-- C7 counterexample: on the one-element sequence `[1]`, the out-of-range
call `RemoveAt 5` writes a diagnostic and returns with the sequence
unchanged; it does not terminate the process, contradicting the claim that
both `operator[]` and `RemoveAt` terminate on out-of-range indices. -/
theorem c7_out_of_range_counterexample :
    (((TArray.empty : TArray Nat).Add 1).RemoveAt 5).2 = Signal.logReturn ∧
    (((TArray.empty : TArray Nat).Add 1).RemoveAt 5).1 = (TArray.empty : TArray Nat).Add 1 ∧
    Signal.logReturn ≠ Signal.logExit := by
  decide

/-- C7 (amended): for any index at least the size, `operator[]` writes a
diagnostic and terminates the process (`exit(1)`), while `RemoveAt` writes a
diagnostic and returns leaving the sequence unchanged; neither has a
recoverable in-band error value. -/
theorem c7_out_of_range_policy {α : Type} (arr : TArray α) (i : Nat)
    (h : arr.Num ≤ i) :
    arr.get i = (none, Signal.logExit) ∧
    arr.RemoveAt i = (arr, Signal.logReturn) := by
  have h1 : arr.data.length ≤ i := h
  rw [TArray.get, if_pos h1, TArray.RemoveAt, if_pos h1]
  exact ⟨rfl, rfl⟩

/-- C7 witness: the amended policy evaluated on the sequence `[1]` at
index 5. -/
theorem c7_out_of_range_policy_witness :
    ((TArray.empty : TArray Nat).Add 1).get 5 = (none, Signal.logExit) ∧
    ((TArray.empty : TArray Nat).Add 1).RemoveAt 5 = ((TArray.empty : TArray Nat).Add 1, Signal.logReturn) := by
  exact c7_out_of_range_policy ((TArray.empty : TArray Nat).Add 1) 5 (by decide)

lemma shiftEraseAt_eq_take_drop {α : Type} (l : List α) (i : Nat) :
    shiftEraseAt l i = l.take i ++ l.drop (i + 1) := by
  induction l generalizing i with
  | nil => simp [shiftEraseAt]
  | cons x xs ih =>
    cases i with
    | zero => simp [shiftEraseAt]
    | succ n => simp [shiftEraseAt, ih]

/-- C8: for a valid index, `RemoveAt` keeps the elements before the index,
shifts the ones after it left by one, and decrements the size; no diagnostic
is emitted. -/
theorem c8_removeAt_shift {α : Type} (arr : TArray α) (i : Nat)
    (h : i < arr.Num) :
    (arr.RemoveAt i).2 = Signal.ok ∧
    (arr.RemoveAt i).1.data = arr.data.take i ++ arr.data.drop (i + 1) ∧
    (arr.RemoveAt i).1.Num = arr.Num - 1 ∧
    (∀ j, j < i → (arr.RemoveAt i).1.data[j]? = arr.data[j]?) ∧
    (∀ j, i ≤ j → j < arr.Num - 1 →
      (arr.RemoveAt i).1.data[j]? = arr.data[j + 1]?) := by
  have hlt : ¬ arr.data.length ≤ i := by
    unfold TArray.Num at h; omega
  have hres : (arr.RemoveAt i).1.data = arr.data.take i ++ arr.data.drop (i + 1) := by
    rw [TArray.RemoveAt, if_neg hlt]
    exact shiftEraseAt_eq_take_drop arr.data i
  have hlen : (arr.data.take i ++ arr.data.drop (i + 1)).length = arr.data.length - 1 := by
    simp [List.length_take, List.length_drop]
    unfold TArray.Num at h
    omega
  refine ⟨by rw [TArray.RemoveAt, if_neg hlt], hres, ?_, ?_, ?_⟩
  · show (arr.RemoveAt i).1.data.length = arr.Num - 1
    rw [hres, hlen]; rfl
  · intro j hj
    rw [hres]
    have hjt : j < (arr.data.take i).length := by
      simp [List.length_take]
      unfold TArray.Num at h
      omega
    rw [List.getElem?_append, if_pos hjt, List.getElem?_take, if_pos hj]
  · intro j hji hjn
    rw [hres]
    have hti : (arr.data.take i).length = i := by
      simp [List.length_take]
      unfold TArray.Num at h
      omega
    rw [List.getElem?_append_right (by omega)]
    rw [hti, List.getElem?_drop]
    congr 1
    omega

/-- C8 witness: adding 1,2,3,4,5,6 to an empty sequence and removing index 2
yields logical contents `[1, 2, 4, 5, 6]` and `Num = 5`. -/
theorem c8_removeAt_shift_witness :
    (((TArray.empty : TArray Nat).addMany [1, 2, 3, 4, 5, 6]).RemoveAt 2).1.data = [1, 2, 4, 5, 6] ∧
    (((TArray.empty : TArray Nat).addMany [1, 2, 3, 4, 5, 6]).RemoveAt 2).1.Num = 5 ∧
    (((TArray.empty : TArray Nat).addMany [1, 2, 3, 4, 5, 6]).RemoveAt 2).2 = Signal.ok := by
  have h := c8_removeAt_shift ((TArray.empty : TArray Nat).addMany [1, 2, 3, 4, 5, 6]) 2 (by decide)
  refine ⟨h.2.1.trans (by decide), ?_, h.1⟩
  rw [h.2.2.1]
  decide

/-! Dynamic map `TMap<K, V>` and dynamic set `TSet<T>`. Both store their
logical contents (the first `Size` slots of the buffer) plus the tracked
capacity; the key/element scans use `==`, modelled by decidable equality. -/

/-- Map `TMap<K, V>`: the stored pairs in order, and the capacity. -/
structure TMap (K V : Type) where
  entries : List (K × V)
  capacity : Nat
deriving DecidableEq

/-- The scan of `TMap::Add`: overwrite the value of the first pair whose key
compares equal, returning `none` when no key matches. -/
def updateFirst {K V : Type} [DecidableEq K] : List (K × V) → K → V → Option (List (K × V))
  | [], _, _ => none
  | (k0, v0) :: rest, k, v =>
    if k0 = k then some ((k0, v) :: rest)
    else (updateFirst rest k v).map fun es => (k0, v0) :: es

/-- The scan of `TMap::operator[]`: value of the first pair whose key
compares equal. -/
def findVal {K V : Type} [DecidableEq K] : List (K × V) → K → Option V
  | [], _ => none
  | (k0, v0) :: rest, k => if k0 = k then some v0 else findVal rest k

/-- The scan of `TMap::Remove`: drop the first pair whose key compares
equal (the shift-left loop), returning `none` when no key matches. -/
def removeFirstKey {K V : Type} [DecidableEq K] : List (K × V) → K → Option (List (K × V))
  | [], _ => none
  | (k0, v0) :: rest, k =>
    if k0 = k then some rest
    else (removeFirstKey rest k).map fun es => (k0, v0) :: es

def TMap.empty {K V : Type} : TMap K V := ⟨[], 0⟩

def TMap.Num {K V : Type} (m : TMap K V) : Nat := m.entries.length

def TMap.GetCapacity {K V : Type} (m : TMap K V) : Nat := m.capacity

/-- Member `Add(Key, Value)`: scan for an equal key and overwrite its value
in place; otherwise grow if full (`Capacity == 0 ? 1 : Capacity * 2`) and
append the new pair at `Data[Size++]`. -/
def TMap.Add {K V : Type} [DecidableEq K] (m : TMap K V) (k : K) (v : V) : TMap K V :=
  match updateFirst m.entries k v with
  | some es => { m with entries := es }
  | none =>
    if m.entries.length = m.capacity then
      { entries := m.entries ++ [(k, v)],
        capacity := if m.capacity = 0 then 1 else m.capacity * 2 }
    else
      { entries := m.entries ++ [(k, v)], capacity := m.capacity }

/-- Member `Remove(Key)`: scan for an equal key and remove that pair by the
shift-left loop; when no key matches, `std::cerr << "Key not found"` and
return. -/
def TMap.Remove {K V : Type} [DecidableEq K] (m : TMap K V) (k : K) : TMap K V × Signal :=
  match removeFirstKey m.entries k with
  | some es => ({ m with entries := es }, .ok)
  | none => (m, .logReturn)

/-- Member `operator[](Key)`: value of the first pair with an equal key;
when no key matches, `std::cerr << "Key not found"` and `exit(1)`. -/
def TMap.find {K V : Type} [DecidableEq K] (m : TMap K V) (k : K) : Option V × Signal :=
  match findVal m.entries k with
  | some v => (some v, .ok)
  | none => (none, .logExit)

def TMap.containsKey {K V : Type} [DecidableEq K] (m : TMap K V) (k : K) : Bool :=
  (findVal m.entries k).isSome

/-- Set `TSet<T>`: the stored elements in insertion order, and the capacity. -/
structure TSet (α : Type) where
  elements : List α
  capacity : Nat
deriving DecidableEq

/-- The scan of `TSet::Contains`. -/
def scanContains {α : Type} [DecidableEq α] : List α → α → Bool
  | [], _ => false
  | y :: ys, x => if y = x then true else scanContains ys x

/-- The scan of `TSet::Remove`: drop the first equal element (the shift-left
loop), returning `none` when no element matches. -/
def removeFirstElem {α : Type} [DecidableEq α] : List α → α → Option (List α)
  | [], _ => none
  | y :: ys, x =>
    if y = x then some ys
    else (removeFirstElem ys x).map fun zs => y :: zs

def TSet.empty {α : Type} : TSet α := ⟨[], 0⟩

def TSet.Num {α : Type} (s : TSet α) : Nat := s.elements.length

def TSet.GetCapacity {α : Type} (s : TSet α) : Nat := s.capacity

def TSet.Contains {α : Type} [DecidableEq α] (s : TSet α) (x : α) : Bool :=
  scanContains s.elements x

/-- Member `Add(Element)`: `if (Contains(Element)) return;` else grow if
full and append at `Data[Size++]`. -/
def TSet.Add {α : Type} [DecidableEq α] (s : TSet α) (x : α) : TSet α :=
  if s.Contains x then s
  else if s.elements.length = s.capacity then
    { elements := s.elements ++ [x],
      capacity := if s.capacity = 0 then 1 else s.capacity * 2 }
  else
    { elements := s.elements ++ [x], capacity := s.capacity }

/-- Member `Remove(Element)`: remove the first equal element by the
shift-left loop; when none matches, `std::cerr << "Element not found"` and
return. -/
def TSet.Remove {α : Type} [DecidableEq α] (s : TSet α) (x : α) : TSet α × Signal :=
  match removeFirstElem s.elements x with
  | some es => ({ s with elements := es }, .ok)
  | none => (s, .logReturn)

/-! Scan lemmas. -/

lemma updateFirst_eq_none {K V : Type} [DecidableEq K] (es : List (K × V)) (k : K) (v : V)
    (h : findVal es k = none) : updateFirst es k v = none := by
  induction es with
  | nil => rfl
  | cons hd tl ih =>
    obtain ⟨k0, v0⟩ := hd
    by_cases hk : k0 = k
    · rw [findVal, if_pos hk] at h
      exact absurd h (by simp)
    · rw [findVal, if_neg hk] at h
      rw [updateFirst, if_neg hk, ih h]
      rfl

lemma updateFirst_append_absent {K V : Type} [DecidableEq K] (es : List (K × V)) (k : K) (v1 v2 : V)
    (h : findVal es k = none) :
    updateFirst (es ++ [(k, v1)]) k v2 = some (es ++ [(k, v2)]) := by
  induction es with
  | nil => simp [updateFirst]
  | cons hd tl ih =>
    obtain ⟨k0, v0⟩ := hd
    by_cases hk : k0 = k
    · rw [findVal, if_pos hk] at h
      exact absurd h (by simp)
    · rw [findVal, if_neg hk] at h
      rw [List.cons_append, updateFirst, if_neg hk, ih h]
      rfl

lemma findVal_append_absent {K V : Type} [DecidableEq K] (es : List (K × V)) (k : K) (v : V)
    (h : findVal es k = none) : findVal (es ++ [(k, v)]) k = some v := by
  induction es with
  | nil => simp [findVal]
  | cons hd tl ih =>
    obtain ⟨k0, v0⟩ := hd
    by_cases hk : k0 = k
    · rw [findVal, if_pos hk] at h
      exact absurd h (by simp)
    · rw [findVal, if_neg hk] at h
      rw [List.cons_append, findVal, if_neg hk]
      exact ih h

lemma updateFirst_of_found {K V : Type} [DecidableEq K] (es : List (K × V)) (k : K) (v v0 : V)
    (h : findVal es k = some v0) :
    ∃ es2, updateFirst es k v = some es2 ∧
      es2.map Prod.fst = es.map Prod.fst ∧ es2.length = es.length := by
  induction es with
  | nil => simp [findVal] at h
  | cons hd tl ih =>
    obtain ⟨k1, v1⟩ := hd
    by_cases hk : k1 = k
    · exact ⟨(k1, v) :: tl, by rw [updateFirst, if_pos hk], by simp, by simp⟩
    · rw [findVal, if_neg hk] at h
      obtain ⟨es2, h1, h2, h3⟩ := ih h
      exact ⟨(k1, v1) :: es2, by rw [updateFirst, if_neg hk, h1]; rfl,
        by simp [h2], by simp [h3]⟩

lemma removeFirstKey_eq_none {K V : Type} [DecidableEq K] (es : List (K × V)) (k : K)
    (h : findVal es k = none) : removeFirstKey es k = none := by
  induction es with
  | nil => rfl
  | cons hd tl ih =>
    obtain ⟨k0, v0⟩ := hd
    by_cases hk : k0 = k
    · rw [findVal, if_pos hk] at h
      exact absurd h (by simp)
    · rw [findVal, if_neg hk] at h
      rw [removeFirstKey, if_neg hk, ih h]
      rfl

lemma scanContains_append_self {α : Type} [DecidableEq α] (l : List α) (x : α) :
    scanContains (l ++ [x]) x = true := by
  induction l with
  | nil => simp [scanContains]
  | cons y ys ih =>
    by_cases hy : y = x
    · rw [List.cons_append, scanContains, if_pos hy]
    · rw [List.cons_append, scanContains, if_neg hy]
      exact ih

lemma removeFirstElem_eq_none {α : Type} [DecidableEq α] (l : List α) (x : α)
    (h : scanContains l x = false) : removeFirstElem l x = none := by
  induction l with
  | nil => rfl
  | cons y ys ih =>
    by_cases hy : y = x
    · rw [scanContains, if_pos hy] at h
      exact absurd h (by simp)
    · rw [scanContains, if_neg hy] at h
      rw [removeFirstElem, if_neg hy, ih h]
      rfl

lemma TMap.Add_entries_absent {K V : Type} [DecidableEq K] (m : TMap K V) (k : K) (v : V)
    (h : findVal m.entries k = none) :
    (m.Add k v).entries = m.entries ++ [(k, v)] ∧ (m.Add k v).Num = m.Num + 1 := by
  have hu := updateFirst_eq_none m.entries k v h
  have key : m.Add k v =
      if m.entries.length = m.capacity then
        ({ entries := m.entries ++ [(k, v)],
           capacity := if m.capacity = 0 then 1 else m.capacity * 2 } : TMap K V)
      else { entries := m.entries ++ [(k, v)], capacity := m.capacity } := by
    unfold TMap.Add
    rw [hu]
  rw [key]
  constructor
  · split <;> rfl
  · unfold TMap.Num
    split <;> simp

/-- C5: map update semantics. For a key not yet present, `Add k v1` appends
`(k, v1)` at the end; the following `Add k v2` overwrites that pair in place,
so lookup yields `v2` and the pair count grew by one in total. For a key
already present, `Add` keeps every stored key in its original position and
does not change the pair count. -/
theorem c5_map_update {K V : Type} [DecidableEq K] (m : TMap K V) (k : K) (v1 v2 : V) :
    (m.containsKey k = false →
      (m.Add k v1).entries = m.entries ++ [(k, v1)] ∧
      ((m.Add k v1).Add k v2).entries = m.entries ++ [(k, v2)] ∧
      ((m.Add k v1).Add k v2).find k = (some v2, Signal.ok) ∧
      ((m.Add k v1).Add k v2).Num = m.Num + 1) ∧
    (m.containsKey k = true →
      (m.Add k v1).entries.map Prod.fst = m.entries.map Prod.fst ∧
      (m.Add k v1).Num = m.Num) := by
  constructor
  · intro h
    have hnone : findVal m.entries k = none := by
      rw [TMap.containsKey] at h
      exact Option.not_isSome_iff_eq_none.mp (by simp [h])
    obtain ⟨h1, hnum1⟩ := TMap.Add_entries_absent m k v1 hnone
    have h2 : ((m.Add k v1).Add k v2).entries = m.entries ++ [(k, v2)] := by
      rw [TMap.Add, h1, updateFirst_append_absent m.entries k v1 v2 hnone]
    refine ⟨h1, h2, ?_, ?_⟩
    · rw [TMap.find, h2, findVal_append_absent m.entries k v2 hnone]
    · show ((m.Add k v1).Add k v2).entries.length = m.Num + 1
      rw [h2]
      simp [TMap.Num]
  · intro h
    have hsome : (findVal m.entries k).isSome := by
      rw [TMap.containsKey] at h
      exact h
    obtain ⟨v0, hv0⟩ := Option.isSome_iff_exists.mp hsome
    obtain ⟨es2, h1, h2, h3⟩ := updateFirst_of_found m.entries k v1 v0 hv0
    constructor
    · rw [TMap.Add, h1]
      exact h2
    · show (TMap.Add m k v1).entries.length = m.entries.length
      rw [TMap.Add, h1]
      exact h3

/-- C5 witness: on the empty map, `Add 1 10; Add 1 20` stores the single
pair `(1, 20)` and lookup returns 20. -/
theorem c5_map_update_witness :
    (((TMap.empty : TMap Nat Nat).Add 1 10).Add 1 20).entries = [(1, 20)] ∧
    (((TMap.empty : TMap Nat Nat).Add 1 10).Add 1 20).find 1 = (some 20, Signal.ok) ∧
    (((TMap.empty : TMap Nat Nat).Add 1 10).Add 1 20).Num = 1 := by
  have h := (c5_map_update (TMap.empty : TMap Nat Nat) 1 10 20).1 (by decide)
  exact ⟨h.2.1, h.2.2.1, h.2.2.2⟩

lemma TSet.Add_of_contains {α : Type} [DecidableEq α] (s : TSet α) (x : α)
    (h : s.Contains x = true) : s.Add x = s := by
  rw [TSet.Add, if_pos h]

lemma TSet.contains_add_self {α : Type} [DecidableEq α] (s : TSet α) (x : α) :
    (s.Add x).Contains x = true := by
  rw [TSet.Add]
  by_cases h : s.Contains x = true
  · rw [if_pos h]; exact h
  · rw [if_neg h]
    show TSet.Contains _ x = true
    unfold TSet.Contains
    split <;> exact scanContains_append_self s.elements x

/-- C6: set `Add` idempotence. Adding an already-contained element leaves
the set record (elements, size, capacity) unchanged; hence a repeated
`Add x; Add x` never inserts twice, `Contains x` holds afterwards, and when
`x` was absent the size grew by exactly one. -/
theorem c6_set_add_idempotent {α : Type} [DecidableEq α] (s : TSet α) (x : α) :
    (s.Contains x = true → s.Add x = s) ∧
    (s.Add x).Add x = s.Add x ∧
    (s.Add x).Contains x = true ∧
    (s.Contains x = false →
      (s.Add x).Num = s.Num + 1 ∧ ((s.Add x).Add x).Num = s.Num + 1) := by
  have hidem : (s.Add x).Add x = s.Add x :=
    TSet.Add_of_contains (s.Add x) x (TSet.contains_add_self s x)
  refine ⟨TSet.Add_of_contains s x, hidem, TSet.contains_add_self s x, ?_⟩
  intro h
  have hnum : (s.Add x).Num = s.Num + 1 := by
    rw [TSet.Add, if_neg (by simp [h])]
    show (TSet.Num _) = _
    unfold TSet.Num
    split <;> simp
  exact ⟨hnum, by rw [hidem, hnum]⟩

/-- C6 witness: on the empty set, `Add 4; Add 4` gives size 1 with 4
contained. -/
theorem c6_set_add_idempotent_witness :
    (((TSet.empty : TSet Nat).Add 4).Add 4).Num = 1 ∧
    (((TSet.empty : TSet Nat).Add 4).Add 4).Contains 4 = true := by
  have h := c6_set_add_idempotent (TSet.empty : TSet Nat) 4
  exact ⟨(h.2.2.2 (by decide)).2, by rw [h.2.1]; exact h.2.2.1⟩

/-- C9: remove-absent atomicity. Removing a key absent from a map writes a
diagnostic and returns with the map record unchanged, without terminating
the process; likewise removing an element absent from a set. -/
theorem c9_remove_absent_noop {K V α : Type} [DecidableEq K] [DecidableEq α]
    (m : TMap K V) (k : K) (s : TSet α) (x : α) :
    (m.containsKey k = false → m.Remove k = (m, Signal.logReturn)) ∧
    (s.Contains x = false → s.Remove x = (s, Signal.logReturn)) := by
  constructor
  · intro h
    have hnone : findVal m.entries k = none := by
      rw [TMap.containsKey] at h
      exact Option.not_isSome_iff_eq_none.mp (by simp [h])
    rw [TMap.Remove, removeFirstKey_eq_none m.entries k hnone]
  · intro h
    rw [TSet.Remove, removeFirstElem_eq_none s.elements x h]

/-- C9 witness: removing key 3 from the one-pair map `{(1, 10)}` and element
2 from the one-element set `{1}` both log and return the container
unchanged. -/
theorem c9_remove_absent_noop_witness :
    ((TMap.empty : TMap Nat Nat).Add 1 10).Remove 3 =
      ((TMap.empty : TMap Nat Nat).Add 1 10, Signal.logReturn) ∧
    ((TSet.empty : TSet Nat).Add 1).Remove 2 =
      ((TSet.empty : TSet Nat).Add 1, Signal.logReturn) := by
  have h := c9_remove_absent_noop ((TMap.empty : TMap Nat Nat).Add 1 10) 3
    ((TSet.empty : TSet Nat).Add 1) 2
  exact ⟨h.1 (by decide), h.2 (by decide)⟩

end EngineUtilities
